import Mathlib

/-!
Verification development for the spec-normalization and concat-compilation
core of a vega-lite-style visualization compiler.  The definitions below are
a shallow embedding of `src/normalize/core.ts` and `src/compile/concat.ts`.
JavaScript objects are modelled as association lists with insertion order,
`undefined` as `Option.none`, and the logging side channel as an explicit
list of warnings returned alongside each result.  Functions of the repository
that are referenced by the two sources but whose code is not part of them
(`varName`, `channelHasField`, `replaceRepeaterInEncoding`, the generic
`SpecMapper` traversal, the six chain normalizers, `buildModel`) are either
modelled from the specification (marked `Modelled from the spec:`) or taken
as parameters.
-/

/-- An opaque JavaScript value (used for widths, views, layout values …).
`truthy` records how the value behaves in a boolean context (`0`, `''` and
`false` are falsy in JavaScript). -/
structure JsVal where
  raw : String := ""
  truthy : Bool := true
  deriving DecidableEq, Repr

/-- An opaque data declaration (`data` property of a spec). -/
structure Data where
  raw : String := ""
  deriving DecidableEq, Repr

/-- An opaque projection declaration. -/
structure Projection where
  raw : String := ""
  deriving DecidableEq, Repr

/-- An opaque configuration object; it is only threaded through to the
chain normalizers' match predicates. -/
structure Config where
  raw : String := ""
  deriving DecidableEq, Repr

/-- An opaque selection definition (value of one key of a
`component.selection` mapping in the compile phase). -/
structure SelDef where
  raw : String := ""
  deriving DecidableEq, Repr

/-- Resolution mode for a `resolve` policy entry. -/
inductive ResolveMode where
  | shared
  | independent
  deriving DecidableEq, Repr

/-- The `resolve.axis` record: per-axis resolution policy. -/
structure AxisResolve where
  x : Option ResolveMode := none
  y : Option ResolveMode := none
  deriving DecidableEq, Repr

/-- A `resolve` policy (only the axis part is inspected by the sources). -/
structure Resolve where
  axis : Option AxisResolve := none
  scale : Option JsVal := none
  legend : Option JsVal := none
  deriving DecidableEq, Repr

/-- The structured warnings emitted on the logging side channel, one
constructor per `log.message` kind used by the two source files. -/
inductive Warning where
  | columnsNotSupportByRowCol (which : String)
  | facetChannelDropped (channels : List String)
  | encodingOverridden (channels : List String)
  | projectionOverridden (parent child : Projection)
  | concatCannotShareAxis
  deriving DecidableEq, Repr

/-- A field reference inside a channel definition: either a plain field name
or a repeated-field placeholder (`{"repeat": "row" | "column" | "repeat"}`). -/
inductive FieldRef where
  | fieldName (s : String)
  | repeatRef (k : String)
  deriving DecidableEq, Repr

/-- A channel definition.  `align`/`center`/`spacing`/`columns` are the
layout sub-properties that facet-channel definitions may carry and that
`getFacetMappingAndLayout` strips out; they are `none` on ordinary channels.
A channel definition is a JavaScript object and hence always truthy. -/
structure ChannelDef where
  field : Option FieldRef := none
  align : Option JsVal := none
  center : Option JsVal := none
  spacing : Option JsVal := none
  columns : Option Nat := none
  deriving DecidableEq, Repr

/-- An encoding: a JavaScript object mapping channel names to channel
definitions, modelled as an association list in insertion order. -/
abbrev Encoding := List (String × ChannelDef)

/-- The active repeater binding: the current flat-repeat, row and column
values (each possibly `null`). -/
structure Repeater where
  rep : Option String := none
  row : Option String := none
  column : Option String := none
  deriving DecidableEq, Repr

def ROW : String := "row"
def COLUMN : String := "column"
def FACET : String := "facet"

/-- JavaScript object spread `{...a, ...b}`: `a`'s keys in order with values
overridden by `b`, followed by `b`'s keys not occurring in `a`. -/
def objSpread {α : Type} (a b : List (String × α)) : List (String × α) :=
  a.map (fun kv => (kv.1, (b.lookup kv.1).getD kv.2)) ++
    b.filter (fun kv => (a.lookup kv.1).isNone)

/-- JavaScript truthiness of an optional numeric property (`0` is falsy,
absence is falsy). -/
def colsTruthy : Option Nat → Bool
  | some n => n != 0
  | none => false

/-- JavaScript truthiness of an optional value property. -/
def jsOptTruthy : Option JsVal → Bool
  | some v => v.truthy
  | none => false

/-- Modelled from the spec: `varName` (imported from `../util`, whose code is
not among the sources) sanitizes a value into an identifier-safe form; we
model it as mapping every non-alphanumeric character to an underscore. -/
def varName (s : String) : String :=
  String.mk (s.data.map (fun c => if c.isAlphanum then c else '_'))

/-- Looks up the repeater binding for a repeated-field placeholder key. -/
def repeaterGet (r : Repeater) (k : String) : Option String :=
  if k = "repeat" then r.rep
  else if k = "row" then r.row
  else if k = "column" then r.column
  else none

/-- Modelled from the spec: `replaceRepeaterInEncoding` (imported from
`../compile/repeater`, whose code is not among the sources) substitutes the
active repeater bindings into repeated field references; an entry whose
placeholder has no binding is dropped.  With no active repeater the encoding
is returned unchanged. -/
def replaceRepeaterInEncoding (e : Encoding) (rep : Option Repeater) : Encoding :=
  match rep with
  | none => e
  | some r =>
    e.filterMap (fun kv =>
      match kv.2.field with
      | some (.repeatRef k) =>
        match repeaterGet r k with
        | some v => some (kv.1, { kv.2 with field := some (.fieldName v) })
        | none => none
      | _ => some kv)

/-- `replaceRepeaterInEncoding` lifted to an optional encoding. -/
def replaceRepeaterInEncodingOpt (e : Option Encoding) (rep : Option Repeater) :
    Option Encoding :=
  e.map (fun e' => replaceRepeaterInEncoding e' rep)

/-- Modelled from the spec: the substitution of `replaceRepeaterInFacet`
(imported from `../compile/repeater`) on a single facet field definition. -/
def replaceRepeaterInChannelDef (d : ChannelDef) (rep : Option Repeater) : ChannelDef :=
  match rep with
  | none => d
  | some r =>
    match d.field with
    | some (.repeatRef k) =>
      match repeaterGet r k with
      | some v => { d with field := some (.fieldName v) }
      | none => { d with field := none }
    | _ => d

/-- Modelled from the spec: `channelHasField` (imported from `../encoding`,
whose code is not among the sources) reports whether the encoding has a
definition for the channel that carries a field. -/
def channelHasField (enc : Option Encoding) (ch : String) : Bool :=
  match enc with
  | none => false
  | some e =>
    match e.lookup ch with
    | some d => d.field.isSome
    | none => false

/-- A repeat definition: either a flat sequence of field names or the
row/column form with optional row and column sequences. -/
inductive RepeatDef where
  | flat (values : List String)
  | rowCol (row : Option (List String)) (column : Option (List String))
  deriving DecidableEq, Repr

/-- `isArray(repeat)` from the source: the flat form is the array form. -/
def RepeatDef.isFlat : RepeatDef → Bool
  | .flat _ => true
  | .rowCol _ _ => false

/-- A facet definition: either a single facet field definition or a mapping
keyed by row/column. -/
inductive FacetDef where
  | flat (d : ChannelDef)
  | mapping (row : Option ChannelDef) (column : Option ChannelDef)
  deriving DecidableEq, Repr

/-- `isFacetMapping` from `../spec/facet`: the row/column form. -/
def isFacetMapping : FacetDef → Bool
  | .mapping _ _ => true
  | .flat _ => false

/-- A layout property value: the flat-facet form stores the value directly,
the row/column form stores a per-axis object. -/
inductive LayoutVal where
  | flat (v : JsVal)
  | byAxis (row : Option JsVal) (column : Option JsVal)
  deriving DecidableEq, Repr

/-- The properties shared by composition specs (facet / repeat / concat
family): name, data, layout properties, column count, resolve policy. -/
structure CompProps where
  name : Option String := none
  data : Option Data := none
  columns : Option Nat := none
  resolve : Option Resolve := none
  align : Option LayoutVal := none
  center : Option LayoutVal := none
  spacing : Option LayoutVal := none
  deriving DecidableEq, Repr

/-- A (possibly faceted) unit spec: mark, encoding, projection, selection,
size and view properties, data and name. -/
structure UnitData where
  mark : String := ""
  encoding : Option Encoding := none
  projection : Option Projection := none
  selection : Option JsVal := none
  width : Option JsVal := none
  height : Option JsVal := none
  view : Option JsVal := none
  data : Option Data := none
  name : Option String := none
  deriving DecidableEq, Repr

/-- The own properties of a layer spec (its children are layers or units). -/
structure LayerData where
  encoding : Option Encoding := none
  projection : Option Projection := none
  data : Option Data := none
  name : Option String := none
  deriving DecidableEq, Repr

/-- Layer-or-unit subtrees: the shapes allowed as children of a layer and as
the inner spec of a facet. -/
inductive LUSpec where
  | unit (u : UnitData)
  | layer (d : LayerData) (children : List LUSpec)

/-- The full spec variant grammar: unit/layer, facet, repeat and the three
concatenation kinds. -/
inductive Spec where
  | lu (s : LUSpec)
  | facet (fd : FacetDef) (child : LUSpec) (props : CompProps)
  | rep (rd : RepeatDef) (child : Spec) (props : CompProps)
  | concat (children : List Spec) (props : CompProps)
  | hconcat (children : List Spec) (props : CompProps)
  | vconcat (children : List Spec) (props : CompProps)

/-- The `data` property of a spec node. -/
def Spec.dataOf : Spec → Option Data
  | .lu (.unit u) => u.data
  | .lu (.layer d _) => d.data
  | .facet _ _ pr => pr.data
  | .rep _ _ pr => pr.data
  | .concat _ pr => pr.data
  | .hconcat _ pr => pr.data
  | .vconcat _ pr => pr.data

/-- The `name` property of a spec node. -/
def Spec.nameOf : Spec → Option String
  | .lu (.unit u) => u.name
  | .lu (.layer d _) => d.name
  | .facet _ _ pr => pr.name
  | .rep _ _ pr => pr.name
  | .concat _ pr => pr.name
  | .hconcat _ pr => pr.name
  | .vconcat _ pr => pr.name

/-- `child.name = …`: setting the `name` property of a spec node. -/
def Spec.setName (n : String) : Spec → Spec
  | .lu (.unit u) => .lu (.unit { u with name := some n })
  | .lu (.layer d cs) => .lu (.layer { d with name := some n } cs)
  | .facet fd c pr => .facet fd c { pr with name := some n }
  | .rep rd c pr => .rep rd c { pr with name := some n }
  | .concat cs pr => .concat cs { pr with name := some n }
  | .hconcat cs pr => .hconcat cs { pr with name := some n }
  | .vconcat cs pr => .vconcat cs { pr with name := some n }

/-- `omit(child, ['data'])`: removing the `data` property of a spec node. -/
def Spec.eraseData : Spec → Spec
  | .lu (.unit u) => .lu (.unit { u with data := none })
  | .lu (.layer d cs) => .lu (.layer { d with data := none } cs)
  | .facet fd c pr => .facet fd c { pr with data := none }
  | .rep rd c pr => .rep rd c { pr with data := none }
  | .concat cs pr => .concat cs { pr with data := none }
  | .hconcat cs pr => .hconcat cs { pr with data := none }
  | .vconcat cs pr => .vconcat cs { pr with data := none }

/-- The `columns` property of a spec node (`none` on unit/layer nodes, which
have no such property). -/
def Spec.columnsOf : Spec → Option Nat
  | .lu _ => none
  | .facet _ _ pr => pr.columns
  | .rep _ _ pr => pr.columns
  | .concat _ pr => pr.columns
  | .hconcat _ pr => pr.columns
  | .vconcat _ pr => pr.columns

/-- The facet definition of a facet node. -/
def Spec.facetDefOf : Spec → Option FacetDef
  | .facet fd _ _ => some fd
  | _ => none

/-- The children of a generic concat node. -/
def Spec.concatChildrenOf : Spec → List Spec
  | .concat cs _ => cs
  | _ => []

/-- The layer-level encoding of a spec node (used to distinguish trees). -/
def Spec.layerEncOf : Spec → Option Encoding
  | .lu (.layer d _) => d.encoding
  | _ => none

/-- `mergeEncoding` (src/normalize/core.ts, lines 261-281): collects the
parent keys that the child encoding overrides, reports them in a single
warning, overlays the parent mapping with the child mapping, and returns
`undefined` instead of an empty merged mapping. -/
def mergeEncoding (parentEncoding encoding : Option Encoding) :
    Option Encoding × List Warning :=
  let ws :=
    match parentEncoding, encoding with
    | some pe, some e =>
      let overriden := (pe.map Prod.fst).filter (fun k => (e.lookup k).isSome)
      if overriden.length > 0 then [Warning.encodingOverridden overriden] else []
    | _, _ => []
  let merged := objSpread (parentEncoding.getD []) (encoding.getD [])
  (if merged.length > 0 then some merged else none, ws)

/-- `mergeProjection` (src/normalize/core.ts, lines 283-289): the child
projection replaces the parent one entirely; a warning names both when both
are present. -/
def mergeProjection (parentProjection projection : Option Projection) :
    Option Projection × List Warning :=
  let ws :=
    match parentProjection, projection with
    | some pp, some pr => [Warning.projectionOverridden pp pr]
    | _, _ => []
  ((match projection with
    | some pr => some pr
    | none => parentProjection), ws)

/-- The normalization context (`NormalizerParams` from `./base`). -/
structure NormalizerParams where
  config : Config := {}
  parentEncoding : Option Encoding := none
  parentProjection : Option Projection := none
  repeater : Option Repeater := none

/-- A non-facet unit normalizer, the interface consumed by the chain
dispatch: a match predicate and an expansion.  The six concrete normalizers
(box plot, error bar, error band, path overlay, rule for ranged line, range
step) are imported from other modules that are not among the sources, so they
are taken as opaque parameters; `run` models the normalizer's expansion
already composed with the recursive normalization callback it receives, and
its own possible warnings are not modelled. -/
structure Normalizer where
  hasMatchingType : UnitData → Config → Bool
  run : UnitData → NormalizerParams → LUSpec

/-- `nonFacetUnitNormalizers` (src/normalize/core.ts, lines 34-41): the fixed
chain order — box plot, error bar, error band, path overlay, rule for ranged
line, range step. -/
def nonFacetUnitNormalizers (boxPlot errorBar errorBand pathOverlay
    ruleForRangedLine rangeStep : Normalizer) : List Normalizer :=
  [boxPlot, errorBar, errorBand, pathOverlay, ruleForRangedLine, rangeStep]

/-- The chain loop of `mapUnit` (src/normalize/core.ts, lines 70-76): the
first normalizer whose match predicate holds consumes the unit; if none
matches the unit is returned unchanged. -/
def runChain (ns : List Normalizer) (u : UnitData) (p : NormalizerParams) : LUSpec :=
  match ns.find? (fun n => n.hasMatchingType u p.config) with
  | some n => n.run u p
  | none => .unit u

/-- `mapUnitWithParentEncodingOrProjection` (src/normalize/core.ts, lines
144-164): merges the parent projection and parent encoding into the unit and
re-enters `mapUnit` with a context containing only the config.  The re-entry
is inlined here: since the fresh context has no parent encoding/projection
and no repeater, the inner `mapUnit` call substitutes an absent repeater
(a no-op) and then runs the normalizer chain. -/
def mapUnitWithParentEncodingOrProjection (ns : List Normalizer) (u : UnitData)
    (p : NormalizerParams) : LUSpec × List Warning :=
  let (mergedProjection, w1) := mergeProjection p.parentProjection u.projection
  let (mergedEncoding, w2) :=
    mergeEncoding p.parentEncoding (replaceRepeaterInEncodingOpt u.encoding p.repeater)
  let u2 : UnitData :=
    { u with
      projection := (match mergedProjection with
        | some pr => some pr
        | none => u.projection),
      encoding := (match mergedEncoding with
        | some e => some e
        | none => u.encoding) }
  let u3 : UnitData := { u2 with encoding := replaceRepeaterInEncodingOpt u2.encoding none }
  (runChain ns u3 { config := p.config }, w1 ++ w2)

/-- `mapUnit` (src/normalize/core.ts, lines 59-77): substitutes the repeater
into the encoding, then either handles an inherited parent
encoding/projection or dispatches to the normalizer chain. -/
def mapUnit (ns : List Normalizer) (u : UnitData) (p : NormalizerParams) :
    LUSpec × List Warning :=
  let u1 : UnitData := { u with encoding := replaceRepeaterInEncodingOpt u.encoding p.repeater }
  if p.parentEncoding.isSome || p.parentProjection.isSome then
    mapUnitWithParentEncodingOrProjection ns u1 p
  else
    (runChain ns u1 p, [])

mutual

/-- `mapLayer` (src/normalize/core.ts, lines 245-258) combined with the
generic layer traversal of `SpecMapper.mapLayer` (modelled from the spec):
the layer's own encoding/projection are removed from the node, merged into
the context as parent encoding/projection, and the children are mapped with
the new context (sub-layers through `mapLayer`, units through `mapUnit`). -/
def mapLU (ns : List Normalizer) (p : NormalizerParams) : LUSpec → LUSpec × List Warning
  | .unit u => mapUnit ns u p
  | .layer d cs =>
    let (pe, w1) := mergeEncoding p.parentEncoding d.encoding
    let (pp, w2) := mergeProjection p.parentProjection d.projection
    let rs := mapLUList ns { p with parentEncoding := pe, parentProjection := pp } cs
    (.layer { d with encoding := none, projection := none } (rs.map Prod.fst),
     w1 ++ w2 ++ rs.flatMap Prod.snd)

/-- The child-by-child traversal of a layer's children list. -/
def mapLUList (ns : List Normalizer) (p : NormalizerParams) :
    List LUSpec → List (LUSpec × List Warning)
  | [] => []
  | c :: rest => mapLU ns p c :: mapLUList ns p rest

end

/-- The layout record built by `getFacetMappingAndLayout`
(`GenericCompositionLayoutWithColumns`). -/
structure FacetLayoutRec where
  align : Option LayoutVal := none
  center : Option LayoutVal := none
  spacing : Option LayoutVal := none
  columns : Option Nat := none
  deriving DecidableEq, Repr

/-- Strips the `align`/`center`/`spacing`/`columns` layout sub-properties
out of a facet channel definition, leaving the field-definition portion. -/
def stripLayoutProps (d : ChannelDef) : ChannelDef :=
  { d with align := none, center := none, spacing := none, columns := none }

/-- One layout property of the row/column branch of
`getFacetMappingAndLayout`: a per-axis object holding the sub-property of
whichever of the row/column definitions declare it, or absent if neither
does. -/
def axisLayoutVal (row column : Option ChannelDef) (get : ChannelDef → Option JsVal) :
    Option LayoutVal :=
  match row.bind get, column.bind get with
  | none, none => none
  | r, c => some (.byAxis r c)

/-- A truthiness-guarded layout entry of the flat-facet branch
(`...(align ? {align} : {})`). -/
def keepTruthyLayout (o : Option JsVal) : Option LayoutVal :=
  match o with
  | some v => if v.truthy then some (.flat v) else none
  | none => none

/-- `getFacetMappingAndLayout` (src/normalize/core.ts, lines 197-243).
If row and/or column is present the facet mapping is keyed by the present
ones (layout props stripped into a per-axis layout record) and a present
facet channel is dropped with a warning; otherwise the facet channel's own
definition becomes the flat facet mapping, with its layout props extracted
into a flat layout record and the repeater substituted into its field. -/
def getFacetMappingAndLayout (row column facet : Option ChannelDef)
    (repeater : Option Repeater) : (FacetDef × FacetLayoutRec) × List Warning :=
  if row.isSome || column.isSome then
    let ws :=
      if facet.isSome then
        [Warning.facetChannelDropped
          ((if row.isSome then [ROW] else []) ++ (if column.isSome then [COLUMN] else []))]
      else []
    ((.mapping (row.map stripLayoutProps) (column.map stripLayoutProps),
      { align := axisLayoutVal row column ChannelDef.align,
        center := axisLayoutVal row column ChannelDef.center,
        spacing := axisLayoutVal row column ChannelDef.spacing,
        columns := none }), ws)
  else
    let fd := facet.getD {}
    ((.flat (replaceRepeaterInChannelDef (stripLayoutProps fd) repeater),
      { align := keepTruthyLayout fd.align,
        center := keepTruthyLayout fd.center,
        spacing := keepTruthyLayout fd.spacing,
        columns := if colsTruthy fd.columns then fd.columns else none }), [])

/-- `mapFacet` (src/normalize/core.ts, lines 129-142) combined with the
generic `SpecMapper.mapFacet` (modelled from the spec, which maps the inner
layer-or-unit spec and keeps everything else): an explicit column count on a
row/column facet mapping is dropped with a warning. -/
def mapFacetCore (ns : List Normalizer) (fd : FacetDef) (child : LUSpec)
    (props : CompProps) (p : NormalizerParams) : Spec × List Warning :=
  let pw :=
    if isFacetMapping fd && colsTruthy props.columns then
      ({ props with columns := none }, [Warning.columnsNotSupportByRowCol "facet"])
    else (props, [])
  let cw := mapLU ns p child
  (.facet fd cw.1 pw.1, pw.2 ++ cw.2)

/-- `mapFacetedUnit` (src/normalize/core.ts, lines 166-195): promotes the
row/column/facet channels of a unit's encoding into an explicit facet node;
mark, size, view, projection and selection move into the inner unit; the
remaining unit properties and the extracted layout stay on the facet node;
the result is finished by `mapFacet`. -/
def mapFacetedUnit (ns : List Normalizer) (u : UnitData) (p : NormalizerParams) :
    Spec × List Warning :=
  let enc := u.encoding.getD []
  let row := enc.lookup ROW
  let column := enc.lookup COLUMN
  let facet := enc.lookup FACET
  let restEnc := enc.filter (fun kv => !(kv.1 == ROW || kv.1 == COLUMN || kv.1 == FACET))
  let fmw := getFacetMappingAndLayout row column facet p.repeater
  let innerUnit : UnitData :=
    { mark := u.mark,
      width := if jsOptTruthy u.width then u.width else none,
      height := if jsOptTruthy u.height then u.height else none,
      view := if jsOptTruthy u.view then u.view else none,
      projection := u.projection,
      encoding := some (replaceRepeaterInEncoding restEnc p.repeater),
      selection := if jsOptTruthy u.selection then u.selection else none,
      data := none, name := none }
  let rw := mapFacetCore ns fmw.1.1 (.unit innerUnit)
    { name := u.name, data := u.data,
      columns := fmw.1.2.columns, resolve := none,
      align := fmw.1.2.align, center := fmw.1.2.center, spacing := fmw.1.2.spacing } p
  (rw.1, fmw.2 ++ rw.2)

/-- The flat-repeat value sequence of `mapRepeat`
(`(isArray(repeat) && repeat) || [repeater ? repeater.repeat : null]`). -/
def repeatVals (rd : RepeatDef) (rep : Option Repeater) : List (Option String) :=
  match rd with
  | .flat vs => vs.map some
  | .rowCol _ _ => [rep.bind Repeater.rep]

/-- The row value sequence of `mapRepeat`
(`(!isArray(repeat) && repeat.row) || [repeater ? repeater.row : null]`). -/
def rowVals (rd : RepeatDef) (rep : Option Repeater) : List (Option String) :=
  match rd with
  | .rowCol (some rs) _ => rs.map some
  | _ => [rep.bind Repeater.row]

/-- The column value sequence of `mapRepeat`. -/
def colVals (rd : RepeatDef) (rep : Option Repeater) : List (Option String) :=
  match rd with
  | .rowCol _ (some cs) => cs.map some
  | _ => [rep.bind Repeater.column]

/-- The cross product enumerated by the three nested loops of `mapRepeat`:
flat-repeat values outermost, then row values, then column values. -/
def repeatTriples (rd : RepeatDef) (rep : Option Repeater) :
    List (Option String × Option String × Option String) :=
  (repeatVals rd rep).flatMap (fun rv =>
    (rowVals rd rep).flatMap (fun ro =>
      (colVals rd rep).map (fun co => (rv, ro, co))))

/-- One name token of a repeat child
(`repeatValue ? '__repeat_' + varName(repeatValue) : ''`); a `null` value or
an empty string is falsy and yields no token. -/
def nameTok (pre : String) (v : Option String) : String :=
  match v with
  | some s => if s == "" then "" else pre ++ varName s
  | none => ""

/-- The deterministic name of a repeat child for a repeater triple. -/
def repeatChildName (rv ro co : Option String) : String :=
  nameTok "__repeat_" rv ++ nameTok "__row_" ro ++ nameTok "__column_" co

mutual

/-- `CoreNormalizer.map` (src/normalize/core.ts, lines 43-56) together with
the per-variant handlers: a unit spec whose encoding has a row, column or
facet channel with a field is promoted to a facet node; otherwise the
generic dispatch (modelled from the spec for the parts living in
`SpecMapper`) sends each variant to its handler.  The repeat handler is
`mapRepeat` (lines 79-127): it warns about an explicit column count on the
row/column form, expands the cross product of repeat/row/column values into
one recursively normalized child per triple (named deterministically, its
data hoisted out), computes the effective column count, and wraps the
children in a generic concat node whose data is the repeat node's own data
if present and otherwise the child template's data. -/
def normMap (ns : List Normalizer) (p : NormalizerParams) : Spec → Spec × List Warning
  | .lu (.unit u) =>
    if channelHasField u.encoding ROW || channelHasField u.encoding COLUMN
        || channelHasField u.encoding FACET then
      mapFacetedUnit ns u p
    else
      let rw := mapUnit ns u p
      (.lu rw.1, rw.2)
  | .lu (.layer d cs) =>
    let rw := mapLU ns p (.layer d cs)
    (.lu rw.1, rw.2)
  | .facet fd child props => mapFacetCore ns fd child props p
  | .rep rd child props =>
    let w0 :=
      if !rd.isFlat && colsTruthy props.columns then
        [Warning.columnsNotSupportByRowCol "repeat"]
      else []
    let rs := (repeatTriples rd p.repeater).map (fun t =>
      let r := normMap ns { p with repeater := some ⟨t.1, t.2.1, t.2.2⟩ } child
      (((r.1).setName (repeatChildName t.1 t.2.1 t.2.2)).eraseData, r.2))
    let columnsOut : Option Nat :=
      match rd with
      | .flat _ => props.columns
      | .rowCol _ col => some (match col with
        | some cs => cs.length
        | none => 1)
    (.concat (rs.map Prod.fst)
      { props with
        data := (match props.data with
          | some d => some d
          | none => child.dataOf),
        columns := columnsOut },
     w0 ++ rs.flatMap Prod.snd)
  | .concat cs props =>
    let rs := normMapList ns p cs
    (.concat (rs.map Prod.fst) props, rs.flatMap Prod.snd)
  | .hconcat cs props =>
    let rs := normMapList ns p cs
    (.hconcat (rs.map Prod.fst) props, rs.flatMap Prod.snd)
  | .vconcat cs props =>
    let rs := normMapList ns p cs
    (.vconcat (rs.map Prod.fst) props, rs.flatMap Prod.snd)

/-- The child-by-child traversal of a concat node's children (modelled from
the spec: the generic concat handlers map `this.map` over the children). -/
def normMapList (ns : List Normalizer) (p : NormalizerParams) :
    List Spec → List (Spec × List Warning)
  | [] => []
  | c :: rest => normMap ns p c :: normMapList ns p rest

end

/-- The three concatenation kinds of `ConcatModel`. -/
inductive ConcatType where
  | vconcat
  | hconcat
  | concat
  deriving DecidableEq, Repr

/-- The `resolve` policy of a spec node (only composition nodes carry one). -/
def Spec.resolveOf : Spec → Option Resolve
  | .lu _ => none
  | .facet _ _ pr => pr.resolve
  | .rep _ _ pr => pr.resolve
  | .concat _ pr => pr.resolve
  | .hconcat _ pr => pr.resolve
  | .vconcat _ pr => pr.resolve

/-- `spec.resolve?.axis?.x === 'shared' || spec.resolve?.axis?.y === 'shared'`
(src/compile/concat.ts, line 22). -/
def sharedAxisRequested (spec : Spec) : Bool :=
  match spec.resolveOf with
  | none => false
  | some r =>
    match r.axis with
    | none => false
    | some a => a.x == some ResolveMode.shared || a.y == some ResolveMode.shared

/-- `ConcatModel.getChildren` (src/compile/concat.ts, lines 67-74). -/
def getChildren : Spec → List Spec
  | .vconcat cs _ => cs
  | .hconcat cs _ => cs
  | .concat cs _ => cs
  | _ => []

/-- The state a `ConcatModel` ends up with after its constructor: its
concatenation kind and its built children.  `M` is the (opaque) model type
produced by `buildModel`, which lives outside the sources. -/
structure ConcatModel (M : Type) where
  concatType : ConcatType
  children : List M

/-- The `ConcatModel` constructor (src/compile/concat.ts, lines 19-31):
warns once when the resolve policy requests a shared x- or y-axis, computes
the concatenation kind, and builds one child model per child spec in order
(child `i` is named with suffix `i`).  `buildModel` (from `./buildmodel`,
not among the sources) is a parameter. -/
def concatModelConstructor {M : Type} (buildModel : Spec → Nat → M) (spec : Spec) :
    ConcatModel M × List Warning :=
  let ws := if sharedAxisRequested spec then [Warning.concatCannotShareAxis] else []
  let ct : ConcatType :=
    match spec with
    | .vconcat _ _ => .vconcat
    | .hconcat _ _ => .hconcat
    | _ => .concat
  let children := (getChildren spec).enum.map (fun ic => buildModel ic.2 ic.1)
  ({ concatType := ct, children := children }, ws)

/-- An event of the `parseSelections` pass over a concat node's children:
child `i`'s own `parseSelections` call, or the merge of child `i`'s
selection component into the parent's mapping. -/
inductive SelEvent where
  | parse (i : Nat)
  | merge (i : Nat)
  deriving DecidableEq, Repr

/-- JavaScript object assignment `obj[key] = v`: an existing key keeps its
position and gets the new value, a new key is appended. -/
def objSet {α : Type} (m : List (String × α)) (k : String) (v : α) :
    List (String × α) :=
  if (m.lookup k).isSome then
    m.map (fun kv => if kv.1 = k then (kv.1, v) else kv)
  else m ++ [(k, v)]

/-- The inner loop of `ConcatModel.parseSelections`
(`for (const key of keys(child.component.selection)) { this.component.selection[key] = … }`). -/
def mergeChildSel {α : Type} (parent child : List (String × α)) : List (String × α) :=
  child.foldl (fun acc kv => objSet acc kv.1 kv.2) parent

/-- The loop of `ConcatModel.parseSelections` over the remaining children,
starting at child index `i` with the parent mapping accumulated so far:
child `i`'s own `parseSelections` runs first (the `parse i` event), then its
selection component is merged into the parent's mapping (the `merge i`
event). -/
def concatParseSelectionsAux (i : Nat) (acc : List (String × SelDef)) :
    List (List (String × SelDef)) → List (String × SelDef) × List SelEvent
  | [] => (acc, [])
  | cs :: rest =>
    let r := concatParseSelectionsAux (i + 1) (mergeChildSel acc cs) rest
    (r.1, SelEvent.parse i :: SelEvent.merge i :: r.2)

/-- `ConcatModel.parseSelections` (src/compile/concat.ts, lines 40-51): the
parent's selection mapping starts empty; for each child in order, the
child's own `parseSelections` runs first and then every key of the child's
selection component is assigned into the parent's mapping.  `childSels`
holds, per child, the selection component its `parseSelections` computes;
the returned event trace records the per-child order of the pass. -/
def concatParseSelections (childSels : List (List (String × SelDef))) :
    List (String × SelDef) × List SelEvent :=
  concatParseSelectionsAux 0 [] childSels

/-- Whether a unit matches no normalizer of the chain, so that the chain
dispatch leaves it untouched. -/
def chainInert (ns : List Normalizer) (cfg : Config) (u : UnitData) : Bool :=
  ns.all (fun n => !(n.hasMatchingType u cfg))

mutual

/-- Canonical layer-or-unit subtrees: units carry no row/column/facet
channel and trigger no chain normalizer; layers carry no layer-level
encoding or projection. -/
def canonicalLU (ns : List Normalizer) (cfg : Config) : LUSpec → Bool
  | .unit u =>
    !(channelHasField u.encoding ROW) && !(channelHasField u.encoding COLUMN)
      && !(channelHasField u.encoding FACET) && chainInert ns cfg u
  | .layer d cs =>
    d.encoding.isNone && d.projection.isNone && canonicalLUList ns cfg cs

/-- Canonicity of a list of layer children. -/
def canonicalLUList (ns : List Normalizer) (cfg : Config) : List LUSpec → Bool
  | [] => true
  | c :: rest => canonicalLU ns cfg c && canonicalLUList ns cfg rest

end

mutual

/-- Canonical spec trees: no repeat nodes, canonical layer/unit subtrees,
and no facet node that combines a row/column mapping with an explicit
column count. -/
def canonicalSpec (ns : List Normalizer) (cfg : Config) : Spec → Bool
  | .lu l => canonicalLU ns cfg l
  | .facet fd child props =>
    !(isFacetMapping fd && colsTruthy props.columns) && canonicalLU ns cfg child
  | .rep _ _ _ => false
  | .concat cs _ => canonicalSpecList ns cfg cs
  | .hconcat cs _ => canonicalSpecList ns cfg cs
  | .vconcat cs _ => canonicalSpecList ns cfg cs

/-- Canonicity of a list of concat children. -/
def canonicalSpecList (ns : List Normalizer) (cfg : Config) : List Spec → Bool
  | [] => true
  | c :: rest => canonicalSpec ns cfg c && canonicalSpecList ns cfg rest

end

/-- A normalizer that matches nothing (used to instantiate the chain at
concrete inputs). -/
def neverNorm : Normalizer :=
  { hasMatchingType := fun _ _ => false, run := fun u _ => .unit u }

/-- A chain whose six normalizers all match nothing. -/
def chain0 : List Normalizer :=
  nonFacetUnitNormalizers neverNorm neverNorm neverNorm neverNorm neverNorm neverNorm

/-- A concrete configuration. -/
def cfg0 : Config := {}

/-- The top-level normalization context: only the configuration. -/
def p0 : NormalizerParams := { config := cfg0 }

/-- A normalizer that matches every unit and expands it to a fixed empty
layer (used to exercise the chain at concrete inputs). -/
def matchAllNorm : Normalizer :=
  { hasMatchingType := fun _ _ => true, run := fun _ _ => .layer {} [] }

/-- The chain instance used for C2: its first normalizer matches every
unit. -/
def chainC2 : List Normalizer :=
  nonFacetUnitNormalizers matchAllNorm neverNorm neverNorm neverNorm neverNorm
    neverNorm

/-- A unit with an encoding of its own. -/
def uC2 : UnitData :=
  { mark := "point", encoding := some [("y", { field := some (.fieldName "b") })] }

/-- A context carrying a non-empty parent encoding. -/
def pC2 : NormalizerParams :=
  { config := cfg0, parentEncoding := some [("x", { field := some (.fieldName "a") })] }

/-- The unit obtained by merging the parent encoding of `pC2` into `uC2`,
which claim C2 predicts is returned unchanged. -/
def mergedC2 : UnitData :=
  { mark := "point",
    encoding := some [("x", { field := some (.fieldName "a") }),
                      ("y", { field := some (.fieldName "b") })] }

/-- The data declared by the repeat wrapper below. -/
def dataWrapper : Data := { raw := "wrapper" }

/-- The data declared by the child template below. -/
def dataChild : Data := { raw := "child" }

/-- A child template that declares its own data. -/
def c1child : Spec := .lu (.unit { mark := "point", data := some dataChild })

/-- A repeat spec that declares data while its child template also does. -/
def c1spec : Spec := .rep (.flat ["f"]) c1child { data := some dataWrapper }

/-- A unit whose encoding has both a `row` and a `facet` field. -/
def uC5 : UnitData :=
  { mark := "point",
    encoding := some [(ROW, { field := some (.fieldName "r") }),
                      (FACET, { field := some (.fieldName "f") })] }

/-- The concatenation kind selected by the `ConcatModel` constructor
(`isVConcatSpec ? 'vconcat' : isHConcatSpec ? 'hconcat' : 'concat'`). -/
def concatTypeOf : Spec → ConcatType
  | .vconcat _ _ => .vconcat
  | .hconcat _ _ => .hconcat
  | _ => .concat

/-- A concat spec requesting a shared x-axis across its children. -/
def c10spec : Spec :=
  .concat [.lu (.unit { mark := "point" }), .lu (.unit { mark := "bar" })]
    { resolve := some { axis := some { x := some ResolveMode.shared } } }

mutual

/-- The canonicity gloss given by claim C9: no row/column/facet channel in
any unit's encoding (and, at the tree level, no repeat node). -/
def noFacetChannelLU : LUSpec → Bool
  | .unit u =>
    !(channelHasField u.encoding ROW) && !(channelHasField u.encoding COLUMN)
      && !(channelHasField u.encoding FACET)
  | .layer _ cs => noFacetChannelLUList cs

/-- `noFacetChannelLU` over a list of layer children. -/
def noFacetChannelLUList : List LUSpec → Bool
  | [] => true
  | c :: rest => noFacetChannelLU c && noFacetChannelLUList rest

end

mutual

/-- Claim C9's reading of "already in the canonical grammar": the tree has
no repeat nodes and no row/column/facet channel embedded in any unit's
encoding. -/
def glossCanonical : Spec → Bool
  | .lu l => noFacetChannelLU l
  | .facet _ child _ => noFacetChannelLU child
  | .rep _ _ _ => false
  | .concat cs _ => glossCanonicalList cs
  | .hconcat cs _ => glossCanonicalList cs
  | .vconcat cs _ => glossCanonicalList cs

/-- `glossCanonical` over a list of concat children. -/
def glossCanonicalList : List Spec → Bool
  | [] => true
  | c :: rest => glossCanonical c && glossCanonicalList rest

end

/-- A layer that carries its own layer-level encoding over a plain unit:
it has no repeat node and no row/column/facet channel in any unit's
encoding, so it satisfies C9's canonicity gloss. -/
def c9input : Spec :=
  .lu (.layer { encoding := some [("x", { field := some (.fieldName "a") })] }
    [.unit { mark := "point" }])

/-- A concrete canonical tree: a concat of a unit and a layer of units. -/
def s9 : Spec :=
  .concat [.lu (.unit { mark := "bar" }),
           .lu (.layer {} [.unit { mark := "line" }])] {}

theorem lookup_append {α : Type} (l1 l2 : List (String × α)) (k : String) :
    (l1 ++ l2).lookup k =
      match l1.lookup k with
      | some v => some v
      | none => l2.lookup k := by
  induction l1 with
  | nil => simp
  | cons kv t ih =>
    obtain ⟨k1, v1⟩ := kv
    by_cases h : k = k1
    · have hb : (k == k1) = true := by simp [h]
      simp [List.lookup_cons, hb]
    · have hb : (k == k1) = false := by simp [h]
      simp [List.lookup_cons, hb, ih]

theorem lookup_mapSpread {α : Type} (a b : List (String × α)) (k : String) :
    (a.map (fun kv => (kv.1, (b.lookup kv.1).getD kv.2))).lookup k =
      (a.lookup k).map (fun v => (b.lookup k).getD v) := by
  induction a with
  | nil => simp
  | cons kv t ih =>
    obtain ⟨k1, v1⟩ := kv
    by_cases h : k = k1
    · have hb : (k == k1) = true := by simp [h]
      subst h
      simp [List.lookup_cons, hb]
    · have hb : (k == k1) = false := by simp [h]
      simp [List.lookup_cons, hb, ih]

theorem lookup_filter_keyTrue {α : Type} (b : List (String × α)) (p : String × α → Bool)
    (k : String) (hp : ∀ v, p (k, v) = true) :
    (b.filter p).lookup k = b.lookup k := by
  induction b with
  | nil => simp
  | cons kv t ih =>
    obtain ⟨k1, v1⟩ := kv
    by_cases h : k = k1
    · subst h
      have hb : (k == k) = true := by simp
      simp [List.filter_cons, hp v1, List.lookup_cons, hb]
    · have hb : (k == k1) = false := by simp [h]
      cases hpc : p (k1, v1) with
      | true => simp [List.filter_cons, hpc, List.lookup_cons, hb, ih]
      | false => simp [List.filter_cons, hpc, List.lookup_cons, hb, ih]

theorem lookup_objSpread {α : Type} (a b : List (String × α)) (k : String) :
    (objSpread a b).lookup k =
      match a.lookup k with
      | some v => some ((b.lookup k).getD v)
      | none => b.lookup k := by
  unfold objSpread
  rw [lookup_append, lookup_mapSpread]
  cases ha : a.lookup k with
  | some v => simp
  | none =>
    simp only [Option.map_none]
    exact lookup_filter_keyTrue b _ k (fun v => by simp [ha])

theorem objSpread_eq_nil {α : Type} (a b : List (String × α)) :
    objSpread a b = [] ↔ a = [] ∧ b = [] := by
  constructor
  · intro h
    unfold objSpread at h
    rcases List.append_eq_nil.mp h with ⟨h1, h2⟩
    have ha : a = [] := List.map_eq_nil_iff.mp h1
    subst ha
    refine ⟨rfl, ?_⟩
    have hfb : b.filter (fun kv => (List.lookup kv.1 ([] : List (String × α))).isNone) = b := by
      rw [List.filter_eq_self]
      intro kv _
      simp
    rw [hfb] at h2
    exact h2
  · rintro ⟨ha, hb⟩
    subst ha; subst hb
    rfl

theorem flatMap_const_length {α β : Type} (as : List α) (f : α → List β) (L : Nat)
    (hL : ∀ a, (f a).length = L) : (as.flatMap f).length = as.length * L := by
  induction as with
  | nil => simp
  | cons a t ih =>
    simp only [List.flatMap_cons, List.length_append, ih, hL, List.length_cons,
      Nat.succ_mul]
    omega

theorem flatMap_const_getElem {α β : Type} (as : List α) (f : α → List β) (L : Nat)
    (hL : ∀ a, (f a).length = L) :
    ∀ (i k : Nat) (hi : i < as.length), k < L →
      (as.flatMap f)[i * L + k]? = (f (as.get ⟨i, hi⟩))[k]? := by
  induction as with
  | nil => intro i k hi _; simp at hi
  | cons a t ih =>
    intro i k hi hk
    cases i with
    | zero =>
      simp only [List.flatMap_cons]
      have h0 : 0 * L + k = k := by omega
      rw [h0, List.getElem?_append]
      have hlt : k < (f a).length := by rw [hL a]; exact hk
      simp [hlt]
    | succ n =>
      simp only [List.flatMap_cons]
      rw [List.getElem?_append]
      have hmul : (n + 1) * L = n * L + L := by rw [Nat.succ_mul]
      have hge : ¬((n + 1) * L + k < (f a).length) := by
        rw [hL a, hmul]; omega
      rw [if_neg hge]
      have harith : (n + 1) * L + k - (f a).length = n * L + k := by
        rw [hL a, hmul]; omega
      rw [harith]
      exact ih n k (Nat.lt_of_succ_lt_succ hi) hk

theorem mem_keys_of_lookup_some {α : Type} (m : List (String × α)) (k : String) (v : α)
    (h : m.lookup k = some v) : k ∈ m.map Prod.fst := by
  induction m with
  | nil => simp at h
  | cons kv t ih =>
    obtain ⟨k1, v1⟩ := kv
    by_cases hk : k = k1
    · subst hk; simp
    · have hb : (k == k1) = false := by simp [hk]
      simp only [List.lookup_cons, hb] at h
      simp [ih h]

theorem lookup_mapUpdate_self {α : Type} (m : List (String × α)) (k : String) (v w : α)
    (h : m.lookup k = some w) :
    (m.map (fun kv => if kv.1 = k then (kv.1, v) else kv)).lookup k = some v := by
  induction m with
  | nil => simp at h
  | cons kv t ih =>
    obtain ⟨k1, v1⟩ := kv
    by_cases hk : k = k1
    · subst hk
      have hb : (k == k) = true := by simp
      simp [List.lookup_cons, hb]
    · have hb : (k == k1) = false := by simp [hk]
      have hne : ¬(k1 = k) := fun hh => hk hh.symm
      simp only [List.lookup_cons, hb] at h
      simp only [List.map_cons, if_neg hne, List.lookup_cons, hb]
      exact ih h

theorem lookup_mapUpdate_other {α : Type} (m : List (String × α)) (k k' : String) (v : α)
    (hkk : k' ≠ k) :
    (m.map (fun kv => if kv.1 = k then (kv.1, v) else kv)).lookup k' = m.lookup k' := by
  induction m with
  | nil => simp
  | cons kv t ih =>
    obtain ⟨k1, v1⟩ := kv
    by_cases hk : k1 = k
    · subst hk
      have hb : (k' == k1) = false := by simp [hkk]
      simp [List.lookup_cons, hb, ih]
    · by_cases h2 : k' = k1
      · subst h2
        have hb : (k' == k') = true := by simp
        simp [List.lookup_cons, hb, if_neg hk]
      · have hb : (k' == k1) = false := by simp [h2]
        simp [List.lookup_cons, hb, if_neg hk, ih]

theorem lookup_objSet_self {α : Type} (m : List (String × α)) (k : String) (v : α) :
    (objSet m k v).lookup k = some v := by
  unfold objSet
  cases hm : m.lookup k with
  | some w =>
    rw [if_pos (by simp [hm])]
    exact lookup_mapUpdate_self m k v w hm
  | none =>
    rw [if_neg (by simp [hm])]
    rw [lookup_append]
    simp [hm, List.lookup_cons]

theorem lookup_objSet_other {α : Type} (m : List (String × α)) (k k' : String) (v : α)
    (hkk : k' ≠ k) : (objSet m k v).lookup k' = m.lookup k' := by
  unfold objSet
  cases hm : m.lookup k with
  | some w =>
    rw [if_pos (by simp [hm])]
    exact lookup_mapUpdate_other m k k' v hkk
  | none =>
    rw [if_neg (by simp [hm])]
    rw [lookup_append]
    have hb : (k' == k) = false := by simp [hkk]
    cases hm2 : m.lookup k' with
    | some v1 => simp
    | none => simp [List.lookup_cons, hb]

theorem lookup_mergeChildSel_none {α : Type} (b : List (String × α)) :
    ∀ (a : List (String × α)) (k : String), b.lookup k = none →
      (mergeChildSel a b).lookup k = a.lookup k := by
  induction b with
  | nil => intro a k _; rfl
  | cons kv t ih =>
    intro a k hb
    obtain ⟨k1, v1⟩ := kv
    have hne : k ≠ k1 := by
      intro h; subst h
      simp [List.lookup_cons] at hb
    have hb2 : (k == k1) = false := by simp [hne]
    have ht : t.lookup k = none := by
      simpa [List.lookup_cons, hb2] using hb
    show (mergeChildSel (objSet a k1 v1) t).lookup k = _
    rw [ih (objSet a k1 v1) k ht, lookup_objSet_other a k1 k v1 hne]

theorem lookup_mergeChildSel_some {α : Type} (b : List (String × α)) :
    ∀ (a : List (String × α)) (k : String) (d : α),
      (b.map Prod.fst).Nodup → b.lookup k = some d →
      (mergeChildSel a b).lookup k = some d := by
  induction b with
  | nil => intro a k d _ hb; simp at hb
  | cons kv t ih =>
    intro a k d hnd hb
    obtain ⟨k1, v1⟩ := kv
    simp only [List.map_cons, List.nodup_cons] at hnd
    by_cases h : k = k1
    · subst h
      have hb1 : (k == k) = true := by simp
      have hd : v1 = d := by simpa [List.lookup_cons, hb1] using hb
      subst hd
      have ht : t.lookup k = none := by
        cases hm : t.lookup k with
        | none => rfl
        | some v2 => exact absurd (mem_keys_of_lookup_some t k v2 hm) hnd.1
      show (mergeChildSel (objSet a k v1) t).lookup k = _
      rw [lookup_mergeChildSel_none t (objSet a k v1) k ht, lookup_objSet_self]
    · have hb2 : (k == k1) = false := by simp [h]
      have ht : t.lookup k = some d := by
        simpa [List.lookup_cons, hb2] using hb
      exact ih (objSet a k1 v1) k d hnd.2 ht

theorem concatParseSelectionsAux_fst (sels : List (List (String × SelDef))) :
    ∀ (i : Nat) (acc : List (String × SelDef)),
      (concatParseSelectionsAux i acc sels).1 = sels.foldl mergeChildSel acc := by
  induction sels with
  | nil => intro i acc; rfl
  | cons cs rest ih =>
    intro i acc
    simp only [concatParseSelectionsAux, List.foldl_cons]
    exact ih (i + 1) (mergeChildSel acc cs)

theorem foldl_merge_lookup_none {α : Type} (cs : List (List (String × α))) :
    ∀ (acc : List (String × α)) (k : String), (∀ c ∈ cs, c.lookup k = none) →
      (cs.foldl mergeChildSel acc).lookup k = acc.lookup k := by
  induction cs with
  | nil => intro acc k _; rfl
  | cons c rest ih =>
    intro acc k h
    simp only [List.foldl_cons]
    rw [ih (mergeChildSel acc c) k (fun c' hc' => h c' (List.mem_cons_of_mem c hc'))]
    exact lookup_mergeChildSel_none c acc k (h c (List.mem_cons_self c rest))

theorem concatParseSelectionsAux_events (sels : List (List (String × SelDef))) :
    ∀ (i : Nat) (acc : List (String × SelDef)) (j : Nat), j < sels.length →
      ((concatParseSelectionsAux i acc sels).2)[2 * j]? = some (SelEvent.parse (i + j)) ∧
      ((concatParseSelectionsAux i acc sels).2)[2 * j + 1]? = some (SelEvent.merge (i + j)) := by
  induction sels with
  | nil => intro i acc j hj; simp at hj
  | cons cs rest ih =>
    intro i acc j hj
    cases j with
    | zero => simp [concatParseSelectionsAux]
    | succ n =>
      have h2 : 2 * (n + 1) = 2 * n + 1 + 1 := by omega
      have h3 : 2 * (n + 1) + 1 = (2 * n + 1) + 1 + 1 := by omega
      have hn : n < rest.length := by simpa using Nat.lt_of_succ_lt_succ hj
      have hadd : i + (n + 1) = (i + 1) + n := by omega
      constructor
      · simp only [concatParseSelectionsAux, h2, List.getElem?_cons_succ]
        rw [hadd]
        exact (ih (i + 1) (mergeChildSel acc cs) n hn).1
      · simp only [concatParseSelectionsAux, h3, List.getElem?_cons_succ]
        rw [hadd]
        exact (ih (i + 1) (mergeChildSel acc cs) n hn).2

theorem nameOf_setName (s : Spec) (n : String) : (s.setName n).nameOf = some n := by
  cases s with
  | lu l => cases l <;> rfl
  | facet fd c pr => rfl
  | rep rd c pr => rfl
  | concat cs pr => rfl
  | hconcat cs pr => rfl
  | vconcat cs pr => rfl

theorem nameOf_eraseData (s : Spec) : s.eraseData.nameOf = s.nameOf := by
  cases s with
  | lu l => cases l <;> rfl
  | facet fd c pr => rfl
  | rep rd c pr => rfl
  | concat cs pr => rfl
  | hconcat cs pr => rfl
  | vconcat cs pr => rfl

/-- C4: for every parent encoding and child encoding merged by
`mergeEncoding`, each key present in the child overrides the parent's
identical key in the merged mapping; all overridden keys are reported in
exactly one warning listing every overridden channel name (never one warning
per key); and if the merged mapping is empty no encoding is attached at all
(the result is `undefined` rather than an empty mapping). -/
theorem C4_mergeEncoding (p c : Encoding) :
    (∀ k d, c.lookup k = some d →
      ((mergeEncoding (some p) (some c)).1.getD []).lookup k = some d)
    ∧ (mergeEncoding (some p) (some c)).2.length ≤ 1
    ∧ (∀ k, k ∈ p.map Prod.fst → (c.lookup k).isSome →
        (mergeEncoding (some p) (some c)).2 =
          [Warning.encodingOverridden
            ((p.map Prod.fst).filter (fun k' => (c.lookup k').isSome))])
    ∧ ((mergeEncoding (some p) (some c)).1 = none ↔ p = [] ∧ c = []) := by
  refine ⟨?_, ?_, ?_, ?_⟩
  · intro k d hc
    simp only [mergeEncoding, Option.getD_some]
    by_cases hm : (objSpread p c).length > 0
    · rw [if_pos hm]
      simp only [Option.getD_some]
      rw [lookup_objSpread]
      cases hp : p.lookup k with
      | some v => simp [hc]
      | none => simp [hc]
    · exfalso
      have : objSpread p c = [] := by
        cases hmm : objSpread p c with
        | nil => rfl
        | cons a t => rw [hmm] at hm; simp at hm
      rcases (objSpread_eq_nil p c).mp this with ⟨_, hcn⟩
      subst hcn
      simp at hc
  · simp only [mergeEncoding]
    by_cases ho : ((p.map Prod.fst).filter (fun k => (c.lookup k).isSome)).length > 0
    · rw [if_pos ho]; simp
    · rw [if_neg ho]; simp
  · intro k hk hc
    simp only [mergeEncoding]
    have hmem : k ∈ (p.map Prod.fst).filter (fun k' => (c.lookup k').isSome) :=
      List.mem_filter.mpr ⟨hk, hc⟩
    have hlen : ((p.map Prod.fst).filter (fun k' => (c.lookup k').isSome)).length > 0 :=
      List.length_pos.mpr (List.ne_nil_of_mem hmem)
    rw [if_pos hlen]
  · simp only [mergeEncoding, Option.getD_some]
    constructor
    · intro h
      by_cases hm : (objSpread p c).length > 0
      · rw [if_pos hm] at h; simp at h
      · have hnil : objSpread p c = [] := by
          cases hmm : objSpread p c with
          | nil => rfl
          | cons a t => rw [hmm] at hm; simp at hm
        exact (objSpread_eq_nil p c).mp hnil
    · rintro ⟨hp, hc⟩
      subst hp; subst hc
      rfl

/-- Witness for C4 at a concrete input: parent `{x, y}`, child `{x}`. -/
theorem C4_mergeEncoding_witness :
    ((mergeEncoding
        (some [("x", { field := some (.fieldName "a") }),
               ("y", { field := some (.fieldName "b") })])
        (some [("x", { field := some (.fieldName "c") })])).1.getD []).lookup "x"
      = some { field := some (.fieldName "c") }
    ∧ (mergeEncoding
        (some [("x", { field := some (.fieldName "a") }),
               ("y", { field := some (.fieldName "b") })])
        (some [("x", { field := some (.fieldName "c") })])).2 =
        [Warning.encodingOverridden ["x"]] := by
  have h := C4_mergeEncoding
    [("x", { field := some (.fieldName "a") }), ("y", { field := some (.fieldName "b") })]
    [("x", { field := some (.fieldName "c") })]
  refine ⟨h.1 "x" { field := some (.fieldName "c") } (by rfl), ?_⟩
  have h3 := h.2.2.1 "x" (by simp) (by rfl)
  rw [h3]
  rfl

theorem find?_first {α : Type} (l : List α) (pred : α → Bool) :
    ∀ (i : Nat) (hi : i < l.length), pred (l.get ⟨i, hi⟩) = true →
      (∀ (j : Nat) (hj : j < i), pred (l.get ⟨j, Nat.lt_trans hj hi⟩) = false) →
      l.find? pred = some (l.get ⟨i, hi⟩) := by
  induction l with
  | nil => intro i hi; simp at hi
  | cons a t ih =>
    intro i hi hp hprev
    cases i with
    | zero =>
      simp only [List.get] at hp
      simp [List.find?_cons, hp]
    | succ n =>
      have h0 : pred a = false := hprev 0 (Nat.succ_pos n)
      simp only [List.find?_cons, h0]
      exact ih n (Nat.lt_of_succ_lt_succ hi) hp
        (fun j hj => hprev (j + 1) (Nat.succ_lt_succ hj))

/-- C7: for every unit spec reaching the non-facet unit normalizer chain (no
inherited parent encoding/projection), the normalizers are tried in the
fixed order box plot, error bar, error band, path overlay, rule for ranged
line, range step; the first whose match predicate holds produces the
replacement subtree and no later one runs; if none matches, the unit is
returned unchanged except for repeater substitution into its encoding. -/
theorem C7_chain_first_match (boxPlot errorBar errorBand pathOverlay
    ruleForRangedLine rangeStep : Normalizer) (u : UnitData) (p : NormalizerParams)
    (hpe : p.parentEncoding = none) (hpp : p.parentProjection = none) :
    (∀ (i : Nat) (hi : i < (nonFacetUnitNormalizers boxPlot errorBar errorBand
          pathOverlay ruleForRangedLine rangeStep).length),
        ((nonFacetUnitNormalizers boxPlot errorBar errorBand pathOverlay
            ruleForRangedLine rangeStep).get ⟨i, hi⟩).hasMatchingType
          { u with encoding := replaceRepeaterInEncodingOpt u.encoding p.repeater }
          p.config = true →
        (∀ (j : Nat) (hj : j < i),
          ((nonFacetUnitNormalizers boxPlot errorBar errorBand pathOverlay
              ruleForRangedLine rangeStep).get ⟨j, Nat.lt_trans hj hi⟩).hasMatchingType
            { u with encoding := replaceRepeaterInEncodingOpt u.encoding p.repeater }
            p.config = false) →
        mapUnit (nonFacetUnitNormalizers boxPlot errorBar errorBand pathOverlay
            ruleForRangedLine rangeStep) u p =
          (((nonFacetUnitNormalizers boxPlot errorBar errorBand pathOverlay
              ruleForRangedLine rangeStep).get ⟨i, hi⟩).run
            { u with encoding := replaceRepeaterInEncodingOpt u.encoding p.repeater } p, []))
    ∧ ((∀ n ∈ nonFacetUnitNormalizers boxPlot errorBar errorBand pathOverlay
          ruleForRangedLine rangeStep,
          n.hasMatchingType
            { u with encoding := replaceRepeaterInEncodingOpt u.encoding p.repeater }
            p.config = false) →
        mapUnit (nonFacetUnitNormalizers boxPlot errorBar errorBand pathOverlay
            ruleForRangedLine rangeStep) u p =
          (.unit { u with encoding := replaceRepeaterInEncodingOpt u.encoding p.repeater },
           [])) := by
  constructor
  · intro i hi hmatch hprev
    simp only [mapUnit, hpe, hpp, Option.isSome_none, Bool.or_self, Bool.false_eq_true,
      if_false, runChain]
    rw [find?_first _ _ i hi hmatch hprev]
  · intro hall
    simp only [mapUnit, hpe, hpp, Option.isSome_none, Bool.or_self, Bool.false_eq_true,
      if_false, runChain]
    rw [List.find?_eq_none.mpr (fun n hn => by simp [hall n hn])]

/-- Witness for C7: with a first (box plot) normalizer that matches, the
chain dispatch returns its expansion. -/
theorem C7_chain_first_match_witness :
    mapUnit (nonFacetUnitNormalizers matchAllNorm neverNorm neverNorm neverNorm
        neverNorm neverNorm) { mark := "boxplot" } { config := cfg0 } =
      (.layer {} [], []) := by
  have h := C7_chain_first_match matchAllNorm neverNorm neverNorm neverNorm neverNorm
    neverNorm { mark := "boxplot" } { config := cfg0 } rfl rfl
  exact h.1 0 (by decide) (by rfl) (fun j hj => absurd hj (Nat.not_lt_zero j))

/-- Counterexample to C2: normalizing a unit under a non-empty parent
encoding does NOT return the merged unit untouched — the normalizer chain
runs on the merged unit, and here its first normalizer's expansion (a layer)
is returned instead of the merged unit. -/
theorem C2_counterexample_chain_runs :
    (mapUnit chainC2 uC2 pC2).1 = LUSpec.layer {} []
    ∧ (mapUnit chainC2 uC2 pC2).1 ≠ LUSpec.unit mergedC2 := by
  constructor
  · rfl
  · intro h
    have h1 : (mapUnit chainC2 uC2 pC2).1 = LUSpec.layer {} [] := rfl
    rw [h1] at h
    exact LUSpec.noConfusion h

/-- C2 (amended): for every unit spec normalized with a non-empty parent
encoding or parent projection in the context, the unit is merged with the
parent encoding/projection and the non-facet unit normalizer chain IS then
applied to the merged unit, in a fresh context holding only the config; the
warnings are exactly those of the projection and encoding merges. -/
theorem C2_merged_unit_enters_chain (ns : List Normalizer) (u : UnitData)
    (p : NormalizerParams)
    (hp : (p.parentEncoding.isSome || p.parentProjection.isSome) = true) :
    mapUnit ns u p =
      (runChain ns
        { u with
          projection := (match (mergeProjection p.parentProjection u.projection).1 with
            | some pr => some pr
            | none => u.projection),
          encoding := (match (mergeEncoding p.parentEncoding
              (replaceRepeaterInEncodingOpt
                (replaceRepeaterInEncodingOpt u.encoding p.repeater) p.repeater)).1 with
            | some e => some e
            | none => replaceRepeaterInEncodingOpt u.encoding p.repeater) }
        { config := p.config },
       (mergeProjection p.parentProjection u.projection).2 ++
         (mergeEncoding p.parentEncoding
           (replaceRepeaterInEncodingOpt
             (replaceRepeaterInEncodingOpt u.encoding p.repeater) p.repeater)).2) := by
  have hrepl : ∀ o : Option Encoding, replaceRepeaterInEncodingOpt o none = o := by
    intro o
    cases o with
    | none => rfl
    | some e => rfl
  simp only [mapUnit, hp, if_true, mapUnitWithParentEncodingOrProjection, hrepl]

/-- Witness for C2's amended theorem at the concrete counterexample input:
the chain's first normalizer consumes the merged unit. -/
theorem C2_merged_unit_enters_chain_witness :
    mapUnit chainC2 uC2 pC2 = (LUSpec.layer {} [], []) := by
  rw [C2_merged_unit_enters_chain chainC2 uC2 pC2 (by rfl)]
  rfl

/-- C1, behavior of the code at the failing input: when both the repeat
wrapper and the child template declare data, the resulting concat node
carries the WRAPPER's data (`data ?? childSpec.data` evaluates to `data`),
not the child template's data — against the claim and against the source's
own inline comment ("data from child spec should have precedence"). -/
theorem C1_wrapper_data_wins_on_code :
    c1child.dataOf = some dataChild
    ∧ (normMap chain0 p0 c1spec).1.dataOf = some dataWrapper
    ∧ dataWrapper ≠ dataChild := by
  refine ⟨rfl, rfl, ?_⟩
  intro h
  exact absurd (congrArg Data.raw h) (by decide)

theorem getElem?_eq_some_get {α : Type} (l : List α) (n : Nat) (h : n < l.length) :
    l[n]? = some (l.get ⟨n, h⟩) := by
  simp [List.getElem?_eq_getElem h]

theorem repeatTriples_length (rd : RepeatDef) (rep : Option Repeater) :
    (repeatTriples rd rep).length =
      (repeatVals rd rep).length *
        ((rowVals rd rep).length * (colVals rd rep).length) := by
  unfold repeatTriples
  exact flatMap_const_length _ _ _ (fun a =>
    flatMap_const_length _ _ _ (fun b => by simp))

theorem repeatTriples_getElem (rd : RepeatDef) (rep : Option Repeater)
    (i j k : Nat) (hi : i < (repeatVals rd rep).length)
    (hj : j < (rowVals rd rep).length) (hk : k < (colVals rd rep).length) :
    (repeatTriples rd rep)[i * ((rowVals rd rep).length * (colVals rd rep).length)
        + j * (colVals rd rep).length + k]? =
      some ((repeatVals rd rep).get ⟨i, hi⟩, (rowVals rd rep).get ⟨j, hj⟩,
        (colVals rd rep).get ⟨k, hk⟩) := by
  unfold repeatTriples
  have hL1 : ∀ a : Option String, ((rowVals rd rep).flatMap
      (fun ro => (colVals rd rep).map (fun co => (a, ro, co)))).length =
        (rowVals rd rep).length * (colVals rd rep).length :=
    fun a => flatMap_const_length _ _ _ (fun b => by simp)
  have hin : j * (colVals rd rep).length + k <
      (rowVals rd rep).length * (colVals rd rep).length := by
    have h1 : j + 1 ≤ (rowVals rd rep).length := hj
    have h2 : j * (colVals rd rep).length + k < (j + 1) * (colVals rd rep).length := by
      rw [Nat.succ_mul]; omega
    exact Nat.lt_of_lt_of_le h2 (Nat.mul_le_mul_right _ h1)
  rw [Nat.add_assoc]
  rw [flatMap_const_getElem _ _ _ hL1 i (j * (colVals rd rep).length + k) hi hin]
  rw [flatMap_const_getElem _ _ _ (fun b => by simp) j k hj
    (by simpa using hk)]
  rw [List.getElem?_map, getElem?_eq_some_get _ _ hk]
  rfl

theorem normMap_rep_children (ns : List Normalizer) (p : NormalizerParams)
    (rd : RepeatDef) (child : Spec) (props : CompProps) :
    (normMap ns p (.rep rd child props)).1.concatChildrenOf =
      (repeatTriples rd p.repeater).map (fun t =>
        (((normMap ns { p with repeater := some ⟨t.1, t.2.1, t.2.2⟩ } child).1).setName
          (repeatChildName t.1 t.2.1 t.2.2)).eraseData) := by
  conv =>
    lhs
    rw [normMap.eq_def]
  simp [Spec.concatChildrenOf, List.map_map]

theorem normMap_rep_names (ns : List Normalizer) (p : NormalizerParams)
    (rd : RepeatDef) (child : Spec) (props : CompProps) :
    (normMap ns p (.rep rd child props)).1.concatChildrenOf.map Spec.nameOf =
      (repeatTriples rd p.repeater).map (fun t =>
        some (repeatChildName t.1 t.2.1 t.2.2)) := by
  rw [normMap_rep_children, List.map_map]
  simp [Function.comp, nameOf_eraseData, nameOf_setName]

/-- C3: `mapRepeat` produces exactly one child per element of the cross
product of the repeat values, row values and column values (each sequence
defaulting to a single-element sequence holding the inherited repeater
binding or null), enumerated with repeat as the outer loop, row as the
middle loop and column as the inner loop; each child is the recursively
normalized template with its data hoisted out, named by concatenating the
`__repeat_`-, `__row_`- and `__column_`-prefixed sanitized tokens (a token
present only for a non-null source value); in particular row values
`[r1,r2]` with column values `[c1,c2]` yield 4 children in the order
`(r1,c1),(r1,c2),(r2,c1),(r2,c2)`. -/
theorem C3_repeat_cross_product (ns : List Normalizer) (p : NormalizerParams)
    (rd : RepeatDef) (child : Spec) (props : CompProps) :
    ((normMap ns p (.rep rd child props)).1.concatChildrenOf.length =
      (repeatVals rd p.repeater).length *
        ((rowVals rd p.repeater).length * (colVals rd p.repeater).length))
    ∧ (∀ (i j k : Nat) (hi : i < (repeatVals rd p.repeater).length)
        (hj : j < (rowVals rd p.repeater).length)
        (hk : k < (colVals rd p.repeater).length),
        ((normMap ns p (.rep rd child props)).1.concatChildrenOf)[
            i * ((rowVals rd p.repeater).length * (colVals rd p.repeater).length)
              + j * (colVals rd p.repeater).length + k]? =
          some ((((normMap ns { p with repeater := some (Repeater.mk
                ((repeatVals rd p.repeater).get ⟨i, hi⟩)
                ((rowVals rd p.repeater).get ⟨j, hj⟩)
                ((colVals rd p.repeater).get ⟨k, hk⟩)) } child).1).setName
              (repeatChildName ((repeatVals rd p.repeater).get ⟨i, hi⟩)
                ((rowVals rd p.repeater).get ⟨j, hj⟩)
                ((colVals rd p.repeater).get ⟨k, hk⟩))).eraseData))
    ∧ ((normMap ns p (.rep rd child props)).1.concatChildrenOf.map Spec.nameOf =
        (repeatTriples rd p.repeater).map (fun t =>
          some (repeatChildName t.1 t.2.1 t.2.2)))
    ∧ ((normMap ns { p with repeater := none }
          (.rep (.rowCol (some ["r1", "r2"]) (some ["c1", "c2"])) child props)
        ).1.concatChildrenOf.map Spec.nameOf =
        [some "__row_r1__column_c1", some "__row_r1__column_c2",
         some "__row_r2__column_c1", some "__row_r2__column_c2"]) := by
  refine ⟨?_, ?_, ?_, ?_⟩
  · rw [normMap_rep_children, List.length_map, repeatTriples_length]
  · intro i j k hi hj hk
    rw [normMap_rep_children, List.getElem?_map,
      repeatTriples_getElem rd p.repeater i j k hi hj hk]
    rfl
  · exact normMap_rep_names ns p rd child props
  · rw [normMap_rep_names]
    rfl

/-- Witness for C3 at a concrete input: the child at cross-product position
`(0,1,0)` of a `{row:[r1,r2], column:[c1,c2]}` repeat of a plain point unit
is the unit renamed `__row_r2__column_c1`. -/
theorem C3_repeat_cross_product_witness :
    ((normMap chain0 p0 (.rep (.rowCol (some ["r1", "r2"]) (some ["c1", "c2"]))
        (.lu (.unit { mark := "point" })) {})).1.concatChildrenOf)[2]? =
      some (Spec.lu (.unit { mark := "point", name := some "__row_r2__column_c1" })) := by
  have h := (C3_repeat_cross_product chain0 p0
    (.rowCol (some ["r1", "r2"]) (some ["c1", "c2"]))
    (.lu (.unit { mark := "point" })) {}).2.1 0 1 0 (by decide) (by decide) (by decide)
  exact h

theorem lookup_isSome_of_channelHasField (enc : Option Encoding) (ch : String)
    (h : channelHasField enc ch = true) : ((enc.getD []).lookup ch).isSome = true := by
  cases enc with
  | none => simp [channelHasField] at h
  | some e =>
    simp only [channelHasField] at h
    cases hl : e.lookup ch with
    | none => rw [hl] at h; simp at h
    | some d => simp [hl]

/-- C5: for every unit spec whose encoding contains a row or column channel
together with a facet channel, the normalized result's facet definition is
the mapping derived from the row/column channels (the facet channel is
dropped), and a `facetChannelDropped` warning naming the present row/column
channels is recorded. -/
theorem C5_row_col_over_facet (ns : List Normalizer) (p : NormalizerParams)
    (u : UnitData)
    (h1 : (channelHasField u.encoding ROW || channelHasField u.encoding COLUMN) = true)
    (h2 : channelHasField u.encoding FACET = true) :
    ((normMap ns p (.lu (.unit u))).1.facetDefOf =
      some (.mapping (((u.encoding.getD []).lookup ROW).map stripLayoutProps)
        (((u.encoding.getD []).lookup COLUMN).map stripLayoutProps)))
    ∧ Warning.facetChannelDropped
        ((if ((u.encoding.getD []).lookup ROW).isSome then [ROW] else []) ++
          (if ((u.encoding.getD []).lookup COLUMN).isSome then [COLUMN] else []))
        ∈ (normMap ns p (.lu (.unit u))).2 := by
  have hcond : (channelHasField u.encoding ROW || channelHasField u.encoding COLUMN
      || channelHasField u.encoding FACET) = true := by
    rcases Bool.or_eq_true_iff.mp h1 with h | h <;> simp [h, h2]
  have hrc : (((u.encoding.getD []).lookup ROW).isSome ||
      ((u.encoding.getD []).lookup COLUMN).isSome) = true := by
    rcases Bool.or_eq_true_iff.mp h1 with h | h
    · simp [lookup_isSome_of_channelHasField u.encoding ROW h]
    · simp [lookup_isSome_of_channelHasField u.encoding COLUMN h]
  have hf : ((u.encoding.getD []).lookup FACET).isSome = true :=
    lookup_isSome_of_channelHasField u.encoding FACET h2
  rw [normMap.eq_def]
  simp only [hcond, if_true, mapFacetedUnit, mapFacetCore, getFacetMappingAndLayout,
    hrc, hf]
  constructor
  · simp [Spec.facetDefOf]
  · simp

/-- Witness for C5 at a concrete input: a unit whose encoding has both a
`row` and a `facet` field. -/
theorem C5_row_col_over_facet_witness :
    ((normMap chain0 p0 (.lu (.unit uC5))).1.facetDefOf =
      some (.mapping (some { field := some (.fieldName "r") }) none))
    ∧ Warning.facetChannelDropped [ROW]
        ∈ (normMap chain0 p0 (.lu (.unit uC5))).2 := by
  exact C5_row_col_over_facet chain0 p0 uC5
    (by decide) (by decide)

/-- C6: an explicit column count declared together with a row/column form is
dropped with a warning — for a row/column repeat the effective column count
of the resulting concat node is the number of declared column values
(defaulting to 1 when no column sequence is declared), for a row/column
facet mapping the columns property is removed — while a flat repeat's
explicit column count is kept. -/
theorem C6_columns_dropped_for_row_col (ns : List Normalizer) (p : NormalizerParams)
    (child : Spec) (lu : LUSpec) (props : CompProps) (fd : FacetDef)
    (ro co : Option (List String))
    (hcols : colsTruthy props.columns = true) (hmap : isFacetMapping fd = true) :
    (Warning.columnsNotSupportByRowCol "repeat"
        ∈ (normMap ns p (.rep (.rowCol ro co) child props)).2)
    ∧ ((normMap ns p (.rep (.rowCol ro co) child props)).1.columnsOf =
        some (match co with
          | some cs => cs.length
          | none => 1))
    ∧ (Warning.columnsNotSupportByRowCol "facet"
        ∈ (normMap ns p (.facet fd lu props)).2)
    ∧ ((normMap ns p (.facet fd lu props)).1.columnsOf = none)
    ∧ (∀ vs : List String,
        (normMap ns p (.rep (.flat vs) child props)).1.columnsOf = props.columns) := by
  refine ⟨?_, ?_, ?_, ?_, ?_⟩
  · rw [normMap.eq_def]
    simp [RepeatDef.isFlat, hcols]
  · rw [normMap.eq_def]
    simp [Spec.columnsOf]
  · rw [normMap.eq_def]
    simp [mapFacetCore, hmap, hcols]
  · rw [normMap.eq_def]
    simp [mapFacetCore, hmap, hcols, Spec.columnsOf]
  · intro vs
    rw [normMap.eq_def]
    simp [Spec.columnsOf]

/-- Witness for C6 at concrete inputs: a `{row:[r], column:[c1,c2]}` repeat
with `columns: 5`, a row/column facet with `columns: 5`, and a flat repeat
with `columns: 5`. -/
theorem C6_columns_dropped_for_row_col_witness :
    (Warning.columnsNotSupportByRowCol "repeat"
        ∈ (normMap chain0 p0 (.rep (.rowCol (some ["r"]) (some ["c1", "c2"]))
            (.lu (.unit { mark := "point" })) { columns := some 5 })).2)
    ∧ ((normMap chain0 p0 (.rep (.rowCol (some ["r"]) (some ["c1", "c2"]))
          (.lu (.unit { mark := "point" })) { columns := some 5 })).1.columnsOf = some 2)
    ∧ (Warning.columnsNotSupportByRowCol "facet"
        ∈ (normMap chain0 p0 (.facet (.mapping (some { field := some (.fieldName "r") }) none)
            (.unit { mark := "point" }) { columns := some 5 })).2)
    ∧ ((normMap chain0 p0 (.facet (.mapping (some { field := some (.fieldName "r") }) none)
          (.unit { mark := "point" }) { columns := some 5 })).1.columnsOf = none)
    ∧ ((normMap chain0 p0 (.rep (.flat ["a", "b"])
          (.lu (.unit { mark := "point" })) { columns := some 5 })).1.columnsOf = some 5) := by
  have h := C6_columns_dropped_for_row_col chain0 p0 (.lu (.unit { mark := "point" }))
    (.unit { mark := "point" }) { columns := some 5 }
    (.mapping (some { field := some (.fieldName "r") }) none)
    (some ["r"]) (some ["c1", "c2"]) (by decide) (by decide)
  exact ⟨h.1, h.2.1, h.2.2.1, h.2.2.2.1, h.2.2.2.2 ["a", "b"]⟩

/-- C8: in `ConcatModel.parseSelections`, every child's own
`parseSelections` runs before that child's selections are merged into the
parent's mapping (in the pass's event trace, `parse i` sits immediately
before `merge i` for every child `i`), and when two children define a
selection under the same key the parent's mapping after the pass holds the
later-declared child's definition (last-write-wins; the merge emits no
warning — `concatParseSelections` produces none at all). -/
theorem C8_selection_merge (childSels : List (List (String × SelDef))) :
    (∀ i : Nat, i < childSels.length →
      ((concatParseSelections childSels).2)[2 * i]? = some (SelEvent.parse i)
      ∧ ((concatParseSelections childSels).2)[2 * i + 1]? = some (SelEvent.merge i))
    ∧ (∀ (cs₁ cs₂ : List (List (String × SelDef))) (m : List (String × SelDef))
        (k : String) (d : SelDef),
        childSels = cs₁ ++ m :: cs₂ →
        (m.map Prod.fst).Nodup →
        m.lookup k = some d →
        (∀ c ∈ cs₂, c.lookup k = none) →
        ((concatParseSelections childSels).1).lookup k = some d) := by
  constructor
  · intro i hi
    have h := concatParseSelectionsAux_events childSels 0 [] i hi
    simpa [concatParseSelections] using h
  · intro cs₁ cs₂ m k d hsplit hnd hm hnone
    rw [concatParseSelections, concatParseSelectionsAux_fst, hsplit,
      List.foldl_append, List.foldl_cons]
    rw [foldl_merge_lookup_none cs₂ _ k hnone]
    exact lookup_mergeChildSel_some m _ k d hnd hm

/-- Witness for C8: two children both defining selection key `sel`; the
parent mapping holds the second child's definition and the trace interleaves
parse/merge per child. -/
theorem C8_selection_merge_witness :
    ((concatParseSelections [[("sel", { raw := "first" })],
        [("sel", { raw := "second" })]]).1).lookup "sel" = some { raw := "second" }
    ∧ ((concatParseSelections [[("sel", { raw := "first" })],
        [("sel", { raw := "second" })]]).2)[2]? = some (SelEvent.parse 1) := by
  have h := C8_selection_merge [[("sel", { raw := "first" })], [("sel", { raw := "second" })]]
  constructor
  · exact h.2 [[("sel", { raw := "first" })]] [] [("sel", { raw := "second" })] "sel"
      { raw := "second" } (by rfl) (by decide) (by rfl) (by simp)
  · exact (h.1 1 (by decide)).1

/-- C10: constructing a `ConcatModel` from a concat spec whose resolve
policy requests a shared x-axis or shared y-axis emits exactly one
cannot-share-axis warning (one warning even if both axes are shared), and
construction otherwise proceeds normally: the built model's concatenation
kind and children are exactly those computed from the spec, untouched by the
warning. -/
theorem C10_concat_shared_axis_warning {M : Type} (buildModel : Spec → Nat → M)
    (spec : Spec) (h : sharedAxisRequested spec = true) :
    (concatModelConstructor buildModel spec).2 = [Warning.concatCannotShareAxis]
    ∧ (concatModelConstructor buildModel spec).1.children =
        (getChildren spec).enum.map (fun ic => buildModel ic.2 ic.1)
    ∧ (concatModelConstructor buildModel spec).1.concatType = concatTypeOf spec := by
  refine ⟨?_, rfl, ?_⟩
  · simp [concatModelConstructor, h]
  · cases spec <;> rfl

/-- Witness for C10 at a concrete input. -/
theorem C10_concat_shared_axis_warning_witness :
    (concatModelConstructor (fun s _ => s) c10spec).2 = [Warning.concatCannotShareAxis]
    ∧ (concatModelConstructor (fun s _ => s) c10spec).1.children =
        (getChildren c10spec).enum.map (fun ic => ic.2) := by
  have h := C10_concat_shared_axis_warning (fun s _ => s) c10spec (by decide)
  exact ⟨h.1, h.2.1⟩

/-- Counterexample to C9 as stated: `c9input` satisfies the claim's
canonicity gloss, yet normalizing it does not return the identical tree —
the layer-level encoding is stripped from the layer (and merged into the
child unit), so the result differs from the input. -/
theorem C9_counterexample_layer_encoding :
    glossCanonical c9input = true
    ∧ (normMap chain0 p0 c9input).1 ≠ c9input := by
  refine ⟨by decide, ?_⟩
  intro h
  have h1 : (normMap chain0 p0 c9input).1.layerEncOf = none := rfl
  rw [h] at h1
  have h2 : c9input.layerEncOf =
      some [("x", { field := some (.fieldName "a") })] := rfl
  rw [h1] at h2
  exact Option.noConfusion h2

theorem replaceRepeaterInEncodingOpt_none (o : Option Encoding) :
    replaceRepeaterInEncodingOpt o none = o := by
  cases o with
  | none => rfl
  | some e => rfl

theorem mapUnit_canonical (ns : List Normalizer) (cfg : Config) (u : UnitData)
    (h : chainInert ns cfg u = true) :
    mapUnit ns u { config := cfg } = (.unit u, []) := by
  have hfind : ns.find? (fun n => n.hasMatchingType u cfg) = none := by
    apply List.find?_eq_none.mpr
    intro n hn
    have h2 := List.all_eq_true.mp h n hn
    simpa using h2
  simp only [mapUnit, replaceRepeaterInEncodingOpt_none]
  show (runChain ns u { config := cfg }, []) = (.unit u, [])
  simp [runChain, hfind]

theorem map_pair_fst {α β : Type} (cs : List α) :
    (cs.map (fun c => (c, ([] : List β)))).map Prod.fst = cs := by
  induction cs with
  | nil => rfl
  | cons c rest ih => simp only [List.map_cons] at ih ⊢; rw [ih]

theorem map_pair_snd_flat {α β : Type} (cs : List α) :
    (cs.map (fun c => (c, ([] : List β)))).flatMap Prod.snd = [] := by
  induction cs with
  | nil => rfl
  | cons c rest ih => simp [ih]

theorem mapLU_canonical_aux (ns : List Normalizer) (cfg : Config) :
    ∀ N : Nat,
      (∀ c : LUSpec, sizeOf c ≤ N → canonicalLU ns cfg c = true →
        mapLU ns { config := cfg } c = (c, []))
      ∧ (∀ cs : List LUSpec, sizeOf cs ≤ N → canonicalLUList ns cfg cs = true →
        mapLUList ns { config := cfg } cs = cs.map (fun c => (c, []))) := by
  intro N
  induction N with
  | zero =>
    constructor
    · intro c hsz hcan
      exfalso
      cases c <;> simp_arith at hsz
    · intro cs hsz hcan
      cases cs with
      | nil => rfl
      | cons c rest => exfalso; simp_arith at hsz
  | succ n ih =>
    constructor
    · intro c hsz hcan
      cases c with
      | unit u =>
        simp only [canonicalLU, Bool.and_eq_true] at hcan
        exact mapUnit_canonical ns cfg u hcan.2
      | layer d cs =>
        obtain ⟨de, dp, dd, dn⟩ := d
        simp only [canonicalLU, Bool.and_eq_true] at hcan
        obtain ⟨⟨henc, hproj⟩, hlist⟩ := hcan
        have hde : de = none := Option.isNone_iff_eq_none.mp henc
        have hdp : dp = none := Option.isNone_iff_eq_none.mp hproj
        subst hde; subst hdp
        have hszcs : sizeOf cs ≤ n := by
          simp_arith at hsz
          omega
        have hrs := (ih).2 cs hszcs hlist
        show (LUSpec.layer { encoding := none, projection := none, data := dd, name := dn }
            ((mapLUList ns { config := cfg } cs).map Prod.fst),
          ([] : List Warning) ++ [] ++ (mapLUList ns { config := cfg } cs).flatMap Prod.snd)
          = (LUSpec.layer { encoding := none, projection := none, data := dd, name := dn } cs,
            ([] : List Warning))
        rw [hrs, map_pair_fst, map_pair_snd_flat]
        rfl
    · intro cs hsz hcan
      cases cs with
      | nil => rfl
      | cons c rest =>
        simp only [canonicalLUList, Bool.and_eq_true] at hcan
        have hszc : sizeOf c ≤ n := by
          simp_arith at hsz
          omega
        have hszrest : sizeOf rest ≤ n := by
          simp_arith at hsz
          omega
        show mapLU ns { config := cfg } c :: mapLUList ns { config := cfg } rest = _
        rw [(ih).1 c hszc hcan.1, (ih).2 rest hszrest hcan.2]
        rfl

theorem normMap_canonical_aux (ns : List Normalizer) (cfg : Config) :
    ∀ N : Nat,
      (∀ s : Spec, sizeOf s ≤ N → canonicalSpec ns cfg s = true →
        normMap ns { config := cfg } s = (s, []))
      ∧ (∀ cs : List Spec, sizeOf cs ≤ N → canonicalSpecList ns cfg cs = true →
        normMapList ns { config := cfg } cs = cs.map (fun c => (c, []))) := by
  intro N
  induction N with
  | zero =>
    constructor
    · intro s hsz hcan
      exfalso
      cases s <;> simp_arith at hsz
    · intro cs hsz hcan
      cases cs with
      | nil => rfl
      | cons c rest => exfalso; simp_arith at hsz
  | succ n ih =>
    constructor
    · intro s hsz hcan
      cases s with
      | lu l =>
        cases l with
        | unit u =>
          simp only [canonicalSpec, canonicalLU, Bool.and_eq_true] at hcan
          obtain ⟨⟨⟨h1, h2⟩, h3⟩, h4⟩ := hcan
          have hrow : channelHasField u.encoding ROW = false := by simpa using h1
          have hcol : channelHasField u.encoding COLUMN = false := by simpa using h2
          have hfac : channelHasField u.encoding FACET = false := by simpa using h3
          rw [normMap.eq_def]
          simp only [hrow, hcol, hfac, Bool.or_self, Bool.false_eq_true, if_false]
          rw [mapUnit_canonical ns cfg u h4]
        | layer d cs =>
          have hlu := (mapLU_canonical_aux ns cfg (sizeOf (LUSpec.layer d cs))).1
            (LUSpec.layer d cs) (le_refl _) (by simpa [canonicalSpec] using hcan)
          rw [normMap.eq_def]
          simp only [hlu]
      | facet fd child props =>
        simp only [canonicalSpec, Bool.and_eq_true] at hcan
        obtain ⟨hcond, hchild⟩ := hcan
        have hc2 : (isFacetMapping fd && colsTruthy props.columns) = false := by
          rwa [Bool.not_eq_true'] at hcond
        have hlu := (mapLU_canonical_aux ns cfg (sizeOf child)).1 child (le_refl _) hchild
        rw [normMap.eq_def]
        simp only [mapFacetCore, hc2, Bool.false_eq_true, if_false, hlu]
        rfl
      | rep rd child props =>
        exfalso
        simp [canonicalSpec] at hcan
      | concat cs props =>
        simp only [canonicalSpec] at hcan
        have hszcs : sizeOf cs ≤ n := by simp_arith at hsz; omega
        have hrs := (ih).2 cs hszcs hcan
        rw [normMap.eq_def]
        simp only [hrs, map_pair_fst, map_pair_snd_flat]
      | hconcat cs props =>
        simp only [canonicalSpec] at hcan
        have hszcs : sizeOf cs ≤ n := by simp_arith at hsz; omega
        have hrs := (ih).2 cs hszcs hcan
        rw [normMap.eq_def]
        simp only [hrs, map_pair_fst, map_pair_snd_flat]
      | vconcat cs props =>
        simp only [canonicalSpec] at hcan
        have hszcs : sizeOf cs ≤ n := by simp_arith at hsz; omega
        have hrs := (ih).2 cs hszcs hcan
        rw [normMap.eq_def]
        simp only [hrs, map_pair_fst, map_pair_snd_flat]
    · intro cs hsz hcan
      cases cs with
      | nil => rfl
      | cons c rest =>
        simp only [canonicalSpecList, Bool.and_eq_true] at hcan
        have hszc : sizeOf c ≤ n := by simp_arith at hsz; omega
        have hszrest : sizeOf rest ≤ n := by simp_arith at hsz; omega
        show normMap ns { config := cfg } c :: normMapList ns { config := cfg } rest = _
        rw [(ih).1 c hszc hcan.1, (ih).2 rest hszrest hcan.2]
        rfl

/-- C9 (amended): a tree that is canonical in the strengthened sense — no
repeat nodes, no row/column/facet channel in any unit's encoding, no
layer-level encoding/projection, no facet node combining a row/column
mapping with an explicit column count, and no unit matched by any chain
normalizer — is a fixed point of normalization: normalizing it again yields
the identical tree (and no warnings). -/
theorem C9_canonical_fixed_point (ns : List Normalizer) (cfg : Config) (s : Spec)
    (h : canonicalSpec ns cfg s = true) :
    normMap ns { config := cfg } s = (s, []) :=
  (normMap_canonical_aux ns cfg (sizeOf s)).1 s (le_refl _) h

/-- Witness for C9's amended theorem at a concrete canonical tree. -/
theorem C9_canonical_fixed_point_witness :
    normMap chain0 { config := cfg0 } s9 = (s9, []) :=
  C9_canonical_fixed_point chain0 cfg0 s9 (by decide)
